import Mathlib

/-!
Verification development for the genesis agent runtime.

This file gives a shallow embedding, in Lean 4, of the parts of the Go
source that the specification claims talk about:

* the message / content-block / stream-chunk data model (`pkg/llm`),
* `ChatHistory.TruncateHistory`, `ChatHistory.Load` (`pkg/llm/history.go`),
* `SessionManager.GetHistory` (`pkg/llm` session manager),
* the transient-error classifiers of the OpenAI-style and Gemini provider
  clients (`pkg/llm/openailm/client.go`, `pkg/llm/gemini/client.go`),
* `FallbackClient.StreamChat` (the failover wrapper),
* the agent engine (`maybeSummarize`, `summarizeSession`, `AttemptRetry`,
  `CollectChunks`, `ProcessChunk`, `HandleToolCall`,
  `ResolveAndCommitToolCall`, `handleSlashCommand`, `HandleMessage`).

Go slices become Lean lists, Go `int` becomes `Int`, Go byte strings keep
their UTF-8 byte length via `String.utf8ByteSize`, Go errors become
`Option GoErr` / `Except GoErr`, and effectful collaborators (the tool
registry, the JSON parser, the provider stream, the filesystem) become
explicit oracle parameters so every path of the source is reachable in
the model.  Mutation of a `*ChatHistory` becomes state passing.
-/

namespace Genesis

/-- Go `error` values, identified by their message text (the code under
scrutiny only ever inspects errors via `err.Error()` substring checks). -/
abbrev GoErr := String

/-- `llm.LLMUsage` (token statistics attached to an assistant message). -/
structure LLMUsage where
  promptTokens : Int := 0
  completionTokens : Int := 0
  totalTokens : Int := 0
  thoughtsTokens : Int := 0
  cachedTokens : Int := 0
  promptDetail : String := ""
  completionDetail : String := ""
  stopReason : String := ""
  deriving Repr, DecidableEq

/-- `llm` block-type constants. -/
def BlockTypeText : String := "text"

def BlockTypeThinking : String := "thinking"

def BlockTypeImage : String := "image"

def BlockTypeError : String := "error"

/-- `llm` stop-reason constants. -/
def StopReasonStop : String := "stop"

def StopReasonLength : String := "length"

/-- `llm.ImageSource`: where an image block's bytes live.  Bytes are
modelled as `List Nat`. -/
structure ImageSource where
  type : String := ""
  mediaType : String := ""
  data : List Nat := []
  url : String := ""
  path : String := ""
  deriving Repr, DecidableEq

/-- `llm.ContentBlock`. -/
structure ContentBlock where
  type : String := ""
  text : String := ""
  source : Option ImageSource := none
  deriving Repr, DecidableEq

/-- `llm.FunctionCall`. -/
structure FunctionCall where
  name : String := ""
  arguments : String := ""
  deriving Repr, DecidableEq

/-- `llm.ToolCall`. -/
structure ToolCall where
  id : String := ""
  name : String := ""
  function : FunctionCall := {}
  deriving Repr, DecidableEq

/-- `llm.Message`. -/
structure Message where
  id : String := ""
  role : String := ""
  content : List ContentBlock := []
  toolCalls : List ToolCall := []
  toolCallID : String := ""
  toolName : String := ""
  usage : Option LLMUsage := none
  timestamp : Int := 0
  deriving Repr, DecidableEq

/-- `llm.StreamChunk`.  `error` is the user-visible transient error text
(`chunk.Error`), `rawError` the transport-level failure (`chunk.RawError`). -/
structure StreamChunk where
  contentBlocks : List ContentBlock := []
  toolCalls : List ToolCall := []
  isFinal : Bool := false
  stopReason : String := ""
  usage : Option LLMUsage := none
  error : String := ""
  rawError : Option GoErr := none
  deriving Repr, DecidableEq

/-- `llm.ChatHistory` value state: the summary slot plus the ordered
message log (the `sync.RWMutex` serialises access; the model passes the
protected state explicitly). -/
structure ChatHistory where
  summary : String := ""
  messages : List Message := []
  deriving Repr, DecidableEq

/-- `config.SystemConfig` (the fields the embedded code reads). -/
structure SystemConfig where
  maxRetries : Int := 3
  retryDelayMs : Int := 500
  llmTimeoutMs : Int := 600000
  thinkingInitDelayMs : Int := 500
  showThinking : Bool := true
  enableTools : Bool := true
  historySummarizeThreshold : Int := 10
  historyKeepRecentCount : Int := 5
  historyMaxChars : Int := 10000
  historyMaxTokens : Int := 4000
  deriving Repr, DecidableEq

/-- `llm.NewTextBlock`. -/
def NewTextBlock (text : String) : ContentBlock :=
  { type := BlockTypeText, text := text }

/-- `llm.NewThinkingBlock`. -/
def NewThinkingBlock (text : String) : ContentBlock :=
  { type := BlockTypeThinking, text := text }

/-- `llm.NewErrorBlock`. -/
def NewErrorBlock (text : String) : ContentBlock :=
  { type := BlockTypeError, text := text }

/-- `llm.NewImageBlock` (inline base64 bytes). -/
def NewImageBlock (data : List Nat) (mimeType : String) : ContentBlock :=
  { type := BlockTypeImage,
    source := some { type := "base64", mediaType := mimeType, data := data } }

/-- `llm.NewImageBlockFromFile` (path-sourced image). -/
def NewImageBlockFromFile (path mimeType : String) : ContentBlock :=
  { type := BlockTypeImage,
    source := some { type := "file", mediaType := mimeType, path := path } }

/-- `llm.NewSystemMessage` built on `llm.NewTextMessage`; the fresh id and
timestamp that Go draws from `utils.GenerateID()` / `time.Now()` are
threaded as arguments. -/
def NewSystemMessage (text : String) (genID : String) (now : Int) : Message :=
  { id := genID, role := "system", content := [NewTextBlock text], timestamp := now }

/-- Substring occurrence over character lists (Go `strings.Contains`,
written to be kernel-evaluable). -/
def charsContains (sub : List Char) : List Char → Bool
  | [] => sub.isEmpty
  | c :: rest => sub.isPrefixOf (c :: rest) || charsContains sub rest

/-- Go `strings.Contains s sub`. -/
def strContains (s sub : String) : Bool :=
  charsContains sub.data s.data

/-- Go `strings.ToLower` (ASCII needles only are compared against it). -/
def goToLower (s : String) : String :=
  ⟨s.data.map Char.toLower⟩

/-- Go `strings.HasPrefix`. -/
def goHasPfx (pre s : String) : Bool :=
  pre.data.isPrefixOf s.data

/-- Go `strings.TrimPrefix`. -/
def dropPfxStr (pre s : String) : String :=
  if pre.data.isPrefixOf s.data then ⟨s.data.drop pre.data.length⟩ else s

/-- Go `strings.TrimSpace`. -/
def goTrimSpace (s : String) : String :=
  ⟨((s.data.dropWhile Char.isWhitespace).reverse.dropWhile Char.isWhitespace).reverse⟩

/-- Split a character list at every occurrence of `sep` (Go
`strings.Split` with a one-character separator). -/
def splitChar (sep : Char) : List Char → List (List Char)
  | [] => [[]]
  | c :: rest =>
    match splitChar sep rest with
    | [] => [[c]]
    | g :: gs => if c == sep then [] :: g :: gs else (c :: g) :: gs

/-- Go `strings.Split(s, " ")`. -/
def goSplitSpace (s : String) : List String :=
  (splitChar ' ' s.data).map fun l => ⟨l⟩

/-! ## Transient-error classifiers (`pkg/llm/openailm/client.go`,
`pkg/llm/gemini/client.go`).  A Go `error` argument is `Option GoErr`
(`none` = nil). -/

/-- `openailm.Client.IsTransientError`. -/
def openailmIsTransientError (err : Option GoErr) : Bool :=
  match err with
  | none => false
  | some e =>
    let msg := goToLower e
    if strContains msg "context deadline exceeded" ||
        strContains msg "connection refused" ||
        strContains msg "timeout" then true
    else if strContains msg "500 internal" ||
        strContains msg "502 bad gateway" ||
        strContains msg "503 service unavailable" ||
        strContains msg "overloaded" then true
    else false

/-- `gemini.GeminiClient.IsTransientError`. -/
def geminiIsTransientError (err : Option GoErr) : Bool :=
  match err with
  | none => false
  | some e =>
    let errMsg := goToLower e
    if strContains errMsg "503" || strContains errMsg "overloaded" then true
    else if strContains errMsg "429" || strContains errMsg "resource exhausted" then true
    else if strContains errMsg "500" || strContains errMsg "internal error" then true
    else if strContains errMsg "timeout" ||
        strContains errMsg "connection refused" ||
        strContains errMsg "context deadline exceeded" then true
    else false

/-! ## `ChatHistory` operations (`pkg/llm/history.go`). -/

/-- `ChatHistory.TruncateHistory`.  The attachment garbage collection on
the discarded messages only deletes files on disk (failures are printed,
never propagated) and never alters the message list, so it is elided
here.  `keep` is the Go `int` argument, taken non-negative. -/
def TruncateHistory (h : ChatHistory) (keep : Nat) : ChatHistory :=
  if h.messages.length ≤ keep then h
  else
    let sysMsg : Option Message :=
      match h.messages.head? with
      | some m => if m.role == "system" then some m else none
      | none => none
    let kept := h.messages.drop (h.messages.length - keep)
    let reAdd : Bool :=
      match kept.head? with
      | none => true
      | some m => m.role != "system"
    match sysMsg with
    | some sm =>
      if reAdd then { h with messages := sm :: kept } else { h with messages := kept }
    | none => { h with messages := kept }

/-- The exact branch condition under which `TruncateHistory` re-prepends
the preserved system message (extracted from the source so the claim
"length = keep+1 iff a system message was re-prepended" can be stated). -/
def truncReprepends (msgs : List Message) (keep : Nat) : Bool :=
  if msgs.length ≤ keep then false
  else
    match msgs.head? with
    | none => false
    | some m =>
      if m.role == "system" then
        match (msgs.drop (msgs.length - keep)).head? with
        | none => true
        | some k => k.role != "system"
      else false

/-- `ChatHistory.EnsureSystemMessage`: replace the system message at
position 0, or prepend a new one. -/
def EnsureSystemMessage (h : ChatHistory) (content : String) (genID : String) (now : Int) :
    ChatHistory :=
  let newSys : Message :=
    { id := genID, role := "system", content := [NewTextBlock content], timestamp := now }
  match h.messages with
  | m :: rest =>
    if m.role == "system" then { h with messages := newSys :: rest }
    else { h with messages := newSys :: m :: rest }
  | [] => { h with messages := [newSys] }

/-- What `os.ReadFile` + the two `json.Unmarshal` attempts of
`ChatHistory.Load` can observe for a history file: the file is missing,
unreadable, or readable with the given (possibly failing) results of
parsing it as the `{summary, messages}` shape and as the legacy bare
message array. -/
inductive LoadInput where
  | notExist
  | readErr (e : GoErr)
  | fileData (objShape : Option (String × List Message)) (arrShape : Option (List Message))
      (parseErr : GoErr)

/-- `ChatHistory.Load`: a missing file leaves the history untouched and
returns nil; a read error is returned; data is parsed first as
`{summary, messages}` and, failing that, as a legacy bare array (whose
summary is the zero value); if both fail the unmarshal error is
returned. -/
def ChatHistoryLoad (h : ChatHistory) (inp : LoadInput) : Except GoErr ChatHistory :=
  match inp with
  | .notExist => .ok h
  | .readErr e => .error e
  | .fileData objShape arrShape parseErr =>
    match objShape with
    | some (s, ms) => .ok { summary := s, messages := ms }
    | none =>
      match arrShape with
      | some ms => .ok { summary := "", messages := ms }
      | none => .error parseErr

/-! ## Session manager (`SessionManager` in `pkg/llm`). -/

/-- The `filenameSafeRegex` substitution: any character outside
`[A-Za-z0-9_-]` becomes an underscore. -/
def safeID (sid : String) : String :=
  ⟨sid.data.map fun c => if c.isAlphanum || c == '_' || c == '-' then c else '_'⟩

/-- `filepath.Join(storage, "history_<safe>.json")`. -/
def historyFilePath (storage sid : String) : String :=
  storage ++ "/history_" ++ safeID sid ++ ".json"

/-- The session-manager state: the `histories` map (session id to a
history reference, standing for the Go `*ChatHistory` pointer), a heap
giving each reference its current value, the allocation counter for
fresh references, and the storage directory. -/
structure SMState where
  histories : List (String × Nat) := []
  heap : List (Nat × ChatHistory) := []
  nextRef : Nat := 0
  storage : String := ""

/-- Map lookup in the `histories` map. -/
def smLookup (st : SMState) (sid : String) : Option Nat :=
  (st.histories.find? fun p => p.1 == sid).map fun p => p.2

/-- Dereference a history pointer. -/
def heapGet (st : SMState) (r : Nat) : ChatHistory :=
  ((st.heap.find? fun p => p.1 == r).map fun p => p.2).getD {}

/-- Store a newly constructed history under a fresh reference. -/
def smInsertNew (st : SMState) (sid : String) (h : ChatHistory) : SMState :=
  { st with
    histories := (sid, st.nextRef) :: st.histories
    heap := (st.nextRef, h) :: st.heap
    nextRef := st.nextRef + 1 }

/-- One record per `ChatHistory.Load` invocation performed by
`GetHistory` (the session id it was for, and whether the load
succeeded). -/
structure LoadEv where
  sid : String
  success : Bool
  deriving Repr, DecidableEq

/-- `SessionManager.GetHistory`.  The read-locked lookup, the
write-locked double check (the manager mutex makes the critical section
atomic, which is how this sequential model renders it), lazy
construction, and the conditional `Load`.  On a load error the error is
returned and nothing is stored; on success (or when no storage is
configured) the history is stored and a live reference returned.
`fs` is the filesystem oracle. -/
def GetHistory (fs : String → LoadInput) (st : SMState) (sid : String) :
    Except GoErr (Nat × ChatHistory) × SMState × List LoadEv :=
  match smLookup st sid with
  | some r => (.ok (r, heapGet st r), st, [])
  | none =>
    match smLookup st sid with
    | some r => (.ok (r, heapGet st r), st, [])
    | none =>
      let h : ChatHistory := {}
      if st.storage != "" then
        match ChatHistoryLoad h (fs (historyFilePath st.storage sid)) with
        | .error e => (.error e, st, [⟨sid, false⟩])
        | .ok h2 => (.ok (st.nextRef, h2), smInsertNew st sid h2, [⟨sid, true⟩])
      else (.ok (st.nextRef, h), smInsertNew st sid h, [])

/-- A sequence of `GetHistory` calls (the only operation that writes the
`histories` map; `SaveSession` only read-locks it), with the
concatenated trace of load events. -/
def applyGets (fs : String → LoadInput) (st : SMState) : List String → SMState × List LoadEv
  | [] => (st, [])
  | sid :: rest =>
    let out := GetHistory fs st sid
    let next := applyGets fs out.2.1 rest
    (next.1, out.2.2 ++ next.2)

/-- Number of `ChatHistory.Load` invocations for a given session id in a
trace. -/
def countLoadAttempts (sid : String) (evs : List LoadEv) : Nat :=
  (evs.filter fun e => e.sid == sid).length

/-- Number of successful `ChatHistory.Load` invocations for a given
session id in a trace. -/
def countLoadSuccesses (sid : String) (evs : List LoadEv) : Nat :=
  (evs.filter fun e => e.sid == sid && e.success).length

/-! ## Agent engine: summarization (`maybeSummarize`, `summarizeSession`
in the agent package). -/

/-- Fresh values the Go code mints via `utils.GenerateID()` and
`time.Now().Unix()`, threaded explicitly. -/
structure FreshEnv where
  genID : String := ""
  now : Int := 0

/-- The char-counting pass of `maybeSummarize`: the byte length
(Go `len`) of every text block over all messages. -/
def totalTextChars (msgs : List Message) : Int :=
  msgs.foldl
    (fun acc m =>
      m.content.foldl
        (fun a b => if b.type == BlockTypeText then a + (b.text.utf8ByteSize : Int) else a) acc)
    0

/-- The role label used when formatting the slice to summarize. -/
def summaryRoleLabel (role : String) : String :=
  if role == "assistant" then "助手"
  else if role == "tool" then "工具"
  else "用戶"

/-- The `[role]: text\n` rendering of the messages selected for
summarization (messages with no text content are skipped). -/
def formatSummarySlice (msgs : List Message) : String :=
  msgs.foldl
    (fun acc m =>
      let msgText := m.content.foldl
        (fun a b => if b.type == BlockTypeText then a ++ b.text else a) ""
      if msgText.utf8ByteSize > 0 then
        acc ++ "[" ++ summaryRoleLabel m.role ++ "]: " ++ goTrimSpace msgText ++ "\n"
      else acc)
    ""

/-- The summarizer's system prompt (verbatim from the source). -/
def summaryPrompt : String :=
  "你是一個對話分析助手。請根據「之前的摘要」以及「新發生的對話片段」，產出一份更新後的簡潔對話摘要。\n" ++
  "摘要應包含：重要的事實、用戶偏好、以及討論結論。\n" ++
  "指令：請僅輸出更新後的摘要文字，不要有開場白或解釋。"

/-- Drain the summarizer's chunk channel: a `RawError` chunk aborts with
that error, otherwise all text blocks are concatenated. -/
def collectSummaryChunks : List StreamChunk → String → Except GoErr String
  | [], acc => .ok acc
  | c :: rest, acc =>
    match c.rawError with
    | some e => .error e
    | none =>
      let acc2 := c.contentBlocks.foldl
        (fun a b => if b.type == BlockTypeText then a ++ b.text else a) acc
      collectSummaryChunks rest acc2

/-- `summarizeSession`: build the summarizer prompt from the prior
summary and the slice `messages[1 : len-keepCount]`, call the provider
(the `llm` oracle stands for `client.StreamChat`), and drain the
chunks.  When the history is too short (`len ≤ keepCount+1`) the
existing summary is returned without a provider call. -/
def summarizeSession (cfg : SystemConfig) (fr : FreshEnv) (h : ChatHistory)
    (llm : List Message → Except GoErr (List StreamChunk)) : Except GoErr String :=
  let msgs := h.messages
  let existing := if h.summary == "" then "(目前尚無摘要)" else h.summary
  let keepCount := cfg.historyKeepRecentCount
  if (msgs.length : Int) ≤ keepCount + 1 then .ok existing
  else
    let toSummarize := (msgs.drop 1).take (msgs.length - keepCount.toNat - 1)
    let historyText := formatSummarySlice toSummarize
    let userPrompt :=
      "【之前的摘要】：\n" ++ existing ++ "\n\n【新發生的需要被總結的片段】：\n" ++
      historyText ++ "\n\n請提供產出整合後的最新摘要："
    let summarizerMsgs : List Message :=
      [NewSystemMessage summaryPrompt fr.genID fr.now,
       { role := "user", content := [NewTextBlock userPrompt] }]
    match llm summarizerMsgs with
    | .error e => .error e
    | .ok chunks => collectSummaryChunks chunks ""

/-- `maybeSummarize`.  Returns the resulting history state together with
a flag recording whether the summarization path was entered (the
`SaveSession` call on that path only persists and is elided).  When the
nested provider call fails the history is left untouched. -/
def maybeSummarize (cfg : SystemConfig) (fr : FreshEnv) (h : ChatHistory)
    (usage : Option LLMUsage)
    (llm : List Message → Except GoErr (List StreamChunk)) : ChatHistory × Bool :=
  let msgs := h.messages
  let msgCount : Int := msgs.length
  if msgCount ≤ cfg.historyKeepRecentCount then (h, false)
  else
    let overTokens : Bool :=
      match usage with
      | some u =>
        decide (u.totalTokens > 0) && decide (cfg.historyMaxTokens > 0) &&
          decide (u.totalTokens ≥ cfg.historyMaxTokens)
      | none => false
    let totalChars : Int := if overTokens then 0 else totalTextChars msgs
    let overCount : Bool :=
      decide (cfg.historySummarizeThreshold > 0) &&
        decide (msgCount ≥ cfg.historySummarizeThreshold)
    let overSize : Bool :=
      decide (cfg.historyMaxChars > 0) && decide (totalChars ≥ cfg.historyMaxChars)
    if !overTokens && !overCount && !overSize then (h, false)
    else
      match summarizeSession cfg fr h llm with
      | .error _ => (h, true)
      | .ok s =>
        (TruncateHistory { h with summary := s } cfg.historyKeepRecentCount.toNat, true)

/-! ## Agent engine: tool-call resolution (`HandleToolCall`,
`ResolveAndCommitToolCall`, `ConvertToolResult`). -/

/-- `api.ToolResult` content block (`pkg/api/tools.go`): type is
`"text"` or `"image"`, `data` holds base64 image bytes. -/
structure ToolContentBlock where
  type : String := ""
  text : String := ""
  data : String := ""
  mimeType : String := ""
  deriving Repr, DecidableEq

/-- `api.ToolResult` (the `Details` metadata map is never read by the
embedded conversion and is elided). -/
structure ToolResult where
  content : List ToolContentBlock := []
  deriving Repr, DecidableEq

/-- The parsed `map[string]any` argument maps are modelled as
association lists with opaque (string-rendered) values; no embedded code
inspects the values. -/
abbrev ArgsMap := List (String × String)

/-- Outcome of `tool.Execute(ctx, args)`: a result, a returned error, or
a runtime panic escaping the call. -/
inductive ExecOutcome where
  | ok (res : ToolResult)
  | err (e : GoErr)
  | panics (r : String)

/-- The engine's effectful collaborators for tool handling: the registry
lookup (`toolRegistry.Get` hit?), the JSON argument parser
(`json.Unmarshal`), tool execution, base64 decoding
(`tools.Base64Decode`), and fresh ids/timestamps. -/
structure ToolEnv where
  lookup : String → Bool
  parseArgs : String → Except GoErr ArgsMap
  exec : String → ArgsMap → ExecOutcome
  b64decode : String → Except GoErr (List Nat)
  fr : FreshEnv := {}

/-- `strings.TrimPrefix(name, "functions.")`. -/
def cleanToolName (name : String) : String :=
  dropPfxStr "functions." name

/-- `ConvertToolResult`: text blocks map to text blocks; image blocks
are base64-decoded (a decode failure becomes a synthetic text block and
processing continues) with `image/png` as the default media type; an
empty result is replaced by one `"(No output)"` text block. -/
def ConvertToolResult (env : ToolEnv) (res : ToolResult) : List ContentBlock :=
  let blocks := res.content.foldl
    (fun acc b =>
      if b.type == BlockTypeImage then
        match env.b64decode b.data with
        | .error e => acc ++ [NewTextBlock ("Error: Failed to decode image: " ++ e)]
        | .ok data =>
          let mimeType := if b.mimeType == "" then "image/png" else b.mimeType
          acc ++ [NewImageBlock data mimeType]
      else acc ++ [NewTextBlock b.text])
    []
  if blocks.isEmpty then [NewTextBlock "(No output)"] else blocks

/-- `HandleToolCall`: look the tool up under the cleaned name, parse the
raw JSON arguments, execute.  Each failure is turned into an error text
block; a panic escapes (modelled as `Except.error`) to be caught by the
`recover` in `ResolveAndCommitToolCall`. -/
def HandleToolCall (env : ToolEnv) (tc : ToolCall) : Except String (List ContentBlock) :=
  let cleanName := cleanToolName tc.name
  if env.lookup cleanName then
    match env.parseArgs tc.function.arguments with
    | .error e => .ok [NewTextBlock ("Error: Failed to parse tool arguments: " ++ e)]
    | .ok args =>
      match env.exec cleanName args with
      | .panics r => .error r
      | .err e => .ok [NewTextBlock ("Error: Tool execution failed: " ++ e)]
      | .ok res => .ok (ConvertToolResult env res)
  else .ok [NewTextBlock ("Error: Unknown tool \x27" ++ tc.name ++ "\x27")]

/-- `ResolveAndCommitToolCall`: the deferred block recovers from a panic
(substituting the `"Error: Internal processing panic"` block) and in
every case appends the tool message `{role: tool, tool_call_id,
tool_name, content}` to the history.  The trailing `SendSignal` /
`StreamBlocks` responder effects do not touch the history and are
elided. -/
def ResolveAndCommitToolCall (env : ToolEnv) (tc : ToolCall) (history : List Message) :
    List Message :=
  let resultBlocks :=
    match HandleToolCall env tc with
    | .error _ => [NewTextBlock "Error: Internal processing panic"]
    | .ok bs => bs
  history ++
    [{ id := env.fr.genID, role := "tool", toolCallID := tc.id, toolName := tc.name,
       content := resultBlocks, timestamp := env.fr.now }]

/-! ## Agent engine: retry accounting (`AttemptRetry`,
`ProcessLLMStream`). -/

/-- `AttemptRetry` as a transition on the inbound message's in-place
retry counter: given the stream error (if any) and the current counter,
it yields (retry?, new counter).  The user notices and the
`retry_delay_ms` sleep do not affect the counter and are elided. -/
def AttemptRetry (cfg : SystemConfig) (isTransient : GoErr → Bool) (streamErr : Option GoErr)
    (retryCount : Int) : Bool × Int :=
  if streamErr.isSome && !(streamErr.map isTransient).getD false then (false, retryCount)
  else if retryCount ≥ cfg.maxRetries then (false, retryCount)
  else (true, retryCount + 1)

/-- How one `ProcessLLMStream` invocation ends, as far as recursion is
concerned: the tool path recurses with the counter untouched; a normal
or length stop returns; the abnormal path consults `AttemptRetry` and
recurses exactly when it returns true. -/
inductive TurnEnd where
  | tools
  | normal
  | lengthStop
  | abnormal (streamErr : Option GoErr)

/-- The number of retry-attributable recursive `ProcessLLMStream`
invocations along one execution of a single inbound message, starting
from retry counter `rc`.  The list gives the way each successive
invocation ends; the counter lives in the message and is never reset. -/
def countRetries (cfg : SystemConfig) (isTransient : GoErr → Bool) :
    List TurnEnd → Int → Nat
  | [], _ => 0
  | .tools :: rest, rc => countRetries cfg isTransient rest rc
  | .normal :: _, _ => 0
  | .lengthStop :: _, _ => 0
  | .abnormal streamErr :: rest, rc =>
    let step := AttemptRetry cfg isTransient streamErr rc
    if step.1 then 1 + countRetries cfg isTransient rest step.2 else 0

/-! ## Agent engine: chunk consumption (`CollectChunks`,
`ProcessChunk`). -/

/-- `ProcessChunk`: the chunk's transient `Error` text becomes an error
block that is both appended and forwarded; every content block is
appended to the assistant message while text/image blocks are always
forwarded and thinking blocks only under `show_thinking`; tool-call
deltas are appended; a non-nil usage snapshot replaces the message's
usage.  Returns the updated message and the blocks forwarded onto
`blockCh`. -/
def ProcessChunk (cfg : SystemConfig) (chunk : StreamChunk) (msg : Message) :
    Message × List ContentBlock :=
  let start :=
    if chunk.error != "" then
      let errBlock := NewErrorBlock ("\n❌ " ++ chunk.error)
      ({ msg with content := msg.content ++ [errBlock] }, [errBlock])
    else (msg, ([] : List ContentBlock))
  let stepped := chunk.contentBlocks.foldl
    (fun (acc : Message × List ContentBlock) block =>
      let m := { acc.1 with content := acc.1.content ++ [block] }
      let f :=
        if block.type == BlockTypeText then acc.2 ++ [block]
        else if block.type == BlockTypeThinking then
          (if cfg.showThinking then acc.2 ++ [block] else acc.2)
        else if block.type == BlockTypeImage then acc.2 ++ [block]
        else acc.2
      (m, f))
    start
  let withCalls :=
    if chunk.toolCalls.isEmpty then stepped.1
    else { stepped.1 with toolCalls := stepped.1.toolCalls ++ chunk.toolCalls }
  let withUsage :=
    match chunk.usage with
    | some u => { withCalls with usage := some u }
    | none => withCalls
  (withUsage, stepped.2)

/-- Result of `CollectChunks`: the aggregated assistant message, the
stream error it returns, and the blocks it forwarded. -/
structure CollectOut where
  msg : Message
  streamErr : Option GoErr
  forwarded : List ContentBlock
  deriving Repr, DecidableEq

/-- The fresh assistant message `CollectChunks` starts from. -/
def initAssistantMessage (fr : FreshEnv) : Message :=
  { id := fr.genID, role := "assistant", content := [], timestamp := fr.now }

/-- The receive loop of `CollectChunks` over the chunk channel, rendered
as a list of the chunks delivered before the channel closes.  A closed
channel returns the accumulated message with `lastError` — which the
source never assigns, hence `none`; a `RawError` chunk returns it
immediately; an `IsFinal` chunk returns after processing.  The
"thinking" timer arm only dispatches at most one UI signal and never
touches the message or the error, so it is elided. -/
def CollectChunksLoop (cfg : SystemConfig) :
    List StreamChunk → Message → List ContentBlock → CollectOut
  | [], msg, fwd => { msg := msg, streamErr := none, forwarded := fwd }
  | c :: rest, msg, fwd =>
    match c.rawError with
    | some e => { msg := msg, streamErr := some e, forwarded := fwd }
    | none =>
      let step := ProcessChunk cfg c msg
      if c.isFinal then { msg := step.1, streamErr := none, forwarded := fwd ++ step.2 }
      else CollectChunksLoop cfg rest step.1 (fwd ++ step.2)

/-- `CollectChunks` (entry). -/
def CollectChunks (cfg : SystemConfig) (fr : FreshEnv) (chunks : List StreamChunk) : CollectOut :=
  CollectChunksLoop cfg chunks (initAssistantMessage fr) []

/-- The assistant message obtained by processing every delivered chunk
with no early exit — the "partially accumulated" message the claim about
a prematurely closed channel refers to. -/
def accumulateAllChunks (cfg : SystemConfig) (fr : FreshEnv) (chunks : List StreamChunk) :
    Message :=
  chunks.foldl (fun m c => (ProcessChunk cfg c m).1) (initAssistantMessage fr)

/-! ## Failover wrapper (`FallbackClient.StreamChat`). -/

/-- A provider client as the failover wrapper sees it: the outcome of
its k-th `StreamChat` attempt (k is 1-based; `.ok` carries the chunk
channel, abstracted as `α`) and its `IsTransientError` classifier. -/
structure MClient (α : Type) where
  results : Nat → Except GoErr α
  transient : GoErr → Bool

/-- The wrapper's effective per-provider attempt budget: `MaxRetries`,
but at least one attempt when it is configured `≤ 0`. -/
def effMaxRetries (configured : Int) : Nat :=
  if configured ≤ 0 then 1 else configured.toNat

/-- The inner retry loop of `FallbackClient.StreamChat` for one
provider, starting at attempt number `attempt`: before every re-attempt
(attempt `k > 1`) it sleeps `(k-1) × RetryDelay` (the delays performed
are returned alongside the outcome); a success returns the channel; a
transient error with attempts remaining retries; otherwise the loop
breaks with the error.  The context is taken as never cancelled. -/
def tryProvider {α : Type} (c : MClient α) (maxR : Nat) (retryDelay : Int) (attempt : Nat) :
    Except GoErr α × List Int :=
  let delays : List Int := if attempt > 1 then [((attempt : Int) - 1) * retryDelay] else []
  match c.results attempt with
  | .ok a => (.ok a, delays)
  | .error e =>
    if h : c.transient e = true ∧ attempt < maxR then
      let r := tryProvider c maxR retryDelay (attempt + 1)
      (r.1, delays ++ r.2)
    else (.error e, delays)
termination_by maxR - attempt
decreasing_by omega

/-- The wrapper's failure type: all providers exhausted, carrying the
last failure (`nil` when there were no clients at all). -/
inductive FallbackErr where
  | allFailed (last : Option GoErr)
  deriving Repr, DecidableEq

/-- The outer provider loop of `FallbackClient.StreamChat`: providers
are tried in order, `lastErr` tracking the most recent failure; when the
list is exhausted the aggregate error carrying the last failure is
returned. -/
def fallbackGo {α : Type} (maxRetries retryDelay : Int) :
    List (MClient α) → Option GoErr → Except FallbackErr α
  | [], lastErr => .error (.allFailed lastErr)
  | c :: cs, lastErr =>
    match (tryProvider c (effMaxRetries maxRetries) retryDelay 1).1 with
    | .ok a => .ok a
    | .error e => fallbackGo maxRetries retryDelay cs (some e)

/-- `FallbackClient.StreamChat`. -/
def FallbackStreamChat {α : Type} (maxRetries retryDelay : Int) (clients : List (MClient α)) :
    Except FallbackErr α :=
  fallbackGo maxRetries retryDelay clients none

/-! ## Agent engine: entry point and slash commands (`HandleMessage`,
`handleSlashCommand`, `ensureSystemPrompt`). -/

/-- `api.FileAttachment`. -/
structure FileAttachment where
  filename : String := ""
  mimeType : String := ""
  data : List Nat := []
  path : String := ""
  deriving Repr, DecidableEq

/-- `api.UnifiedMessage` (the fields the engine reads; the session
routing fields are not consulted by the embedded control flow). -/
structure UnifiedMessage where
  content : String := ""
  files : List FileAttachment := []
  retryCount : Int := 0
  continueCount : Int := 0
  noTools : Bool := false
  debugID : String := ""
  deriving Repr, DecidableEq

/-- The observable outcome of `HandleMessage` / `handleSlashCommand`:
the returned message, the final history state, how many times the LLM
entry `ProcessLLMStream` was invoked, which tools were executed
directly, the `SendReply` notices sent, the blocks streamed via
`StreamBlocks`, how many times `maybeSummarize` was invoked, and whether
a tool panic escaped (the slash path has no `recover`). -/
structure HandleOut where
  result : Message := {}
  history : ChatHistory := {}
  llmCalls : Nat := 0
  toolExecs : List String := []
  replies : List String := []
  streamed : List ContentBlock := []
  summarizeRuns : Nat := 0
  panicked : Bool := false
  deriving Repr, DecidableEq

/-- The engine's full environment of effectful collaborators.
`processLLM` stands for `ProcessLLMStream` (every invocation performs at
least one provider call) and returns the assistant message together with
the history as that call leaves it. -/
structure EngineEnv where
  cfg : SystemConfig := {}
  systemPrompt : String := ""
  fr : FreshEnv := {}
  tools : ToolEnv
  processLLM : UnifiedMessage → ChatHistory → Message × ChatHistory
  summarizerLLM : List Message → Except GoErr (List StreamChunk)

/-- Go `strings.SplitN(s, " ", 3)`. -/
def splitN3Space (s : String) : List String :=
  let ps := goSplitSpace s
  if ps.length ≤ 3 then ps
  else ps.take 2 ++ [String.intercalate " " (ps.drop 2)]

/-- Go `strings.TrimPrefix(s, "/")`. -/
def dropLeadingSlash (s : String) : String :=
  dropPfxStr "/" s

/-- The first token of a slash command (used to state which commands are
the `/notools` special form). -/
def slashToolName (content : String) : String :=
  (splitN3Space (dropLeadingSlash content)).headD ""

/-- Go map assignment `m[k] = v` on the association-list model. -/
def mapSet (m : ArgsMap) (k v : String) : ArgsMap :=
  if m.any (fun p => p.1 == k) then m.map (fun p => if p.1 == k then (k, v) else p)
  else m ++ [(k, v)]

/-- Go `maps.Copy(dst, src)`. -/
def goMapsCopy (dst src : ArgsMap) : ArgsMap :=
  src.foldl (fun d p => mapSet d p.1 p.2) dst

/-- The usage reply for a malformed slash command (verbatim, braces
escaped). -/
def slashUsageReply : String :=
  "❌ Format error. Please use: /[tool_name] [action] [JSON_params(optional)]\nExample: `/os list_desktop` or `/os run_command \x7b\"command\":\"dir\"\x7d`"

/-- The parameter-parsing step of `handleSlashCommand`: JSON first, then
the `run_command` single-string fallback; otherwise the parse-failure
reply. -/
def slashParams (env : EngineEnv) (toolName action : String) (parts : List String) :
    Except String ArgsMap :=
  if parts.length > 2 then
    let rest := (parts.drop 2).headD ""
    match env.tools.parseArgs rest with
    | .ok params => .ok params
    | .error e =>
      if (toolName == "os" || toolName == "os_control") && action == "run_command" then
        .ok [("command", rest)]
      else .error ("❌ Parameter parsing failed: " ++ e)
  else .ok []

/-- The registry lookup of `handleSlashCommand`: the tool name itself,
then the `_control`-suffixed fallback. -/
def resolveSlashTool (env : EngineEnv) (toolName : String) : Option String :=
  if env.tools.lookup toolName then some toolName
  else if env.tools.lookup (toolName ++ "_control") then some (toolName ++ "_control")
  else none

/-- `handleSlashCommand`.  `/notools` strips the sentinel, sets
`NoTools`, re-enters `ProcessLLMStream` and appends a non-empty
assistant result to the history (then saves); every other command runs
entirely outside the history: failures only send a reply, success
executes the tool and streams the converted result blocks as a synthetic
assistant message. -/
def handleSlashCommand (env : EngineEnv) (msg : UnifiedMessage) (h : ChatHistory) : HandleOut :=
  let parts := splitN3Space (dropLeadingSlash msg.content)
  if parts.length < 2 then
    { history := h, replies := [slashUsageReply] }
  else
    let toolName := parts.headD ""
    let action := (parts.drop 1).headD ""
    if toolName == "notools" then
      let content2 := if parts.length > 2 then action ++ " " ++ (parts.drop 2).headD "" else action
      let msg2 := { msg with noTools := true, content := content2 }
      let run := env.processLLM msg2 h
      let h3 :=
        if run.1.content.length > 0 then { run.2 with messages := run.2.messages ++ [run.1] }
        else run.2
      { result := run.1, history := h3, llmCalls := 1 }
    else
      match slashParams env toolName action parts with
      | .error reply => { history := h, replies := [reply] }
      | .ok params =>
        let args := goMapsCopy (mapSet [] "action" action) params
        match resolveSlashTool env toolName with
        | none => { history := h, replies := ["❌ Tool not found: " ++ toolName] }
        | some resolved =>
          let notice := "🛠️ Manually executing tool: " ++ toolName ++ "/" ++ action ++ "..."
          match env.tools.exec resolved args with
          | .panics _ =>
            { history := h, toolExecs := [resolved], replies := [notice], panicked := true }
          | .err e =>
            { history := h, toolExecs := [resolved],
              replies := [notice, "❌ Execution error: " ++ e] }
          | .ok res =>
            let resBlocks := ConvertToolResult env.tools res
            { result :=
                { id := env.fr.genID, role := "assistant", content := resBlocks,
                  timestamp := env.fr.now },
              history := h, toolExecs := [resolved], replies := [notice],
              streamed := if resBlocks.isEmpty then [] else resBlocks }

/-- `ensureSystemPrompt`: the configured system prompt, with the
summary concatenated under `[CONVERSATION SUMMARY]` when one is set, is
ensured at position 0 (only when the resulting prompt is non-empty). -/
def ensureSystemPrompt (env : EngineEnv) (h : ChatHistory) : ChatHistory :=
  let prompt := env.systemPrompt
  let prompt :=
    if h.summary != "" then prompt ++ "\n\n[CONVERSATION SUMMARY]\n" ++ h.summary else prompt
  if prompt != "" then EnsureSystemMessage h prompt env.fr.genID env.fr.now else h

/-- The user message `HandleMessage` constructs from the inbound text
and file attachments. -/
def buildUserMessage (env : EngineEnv) (msg : UnifiedMessage) : Message :=
  let blocks := if msg.content != "" then [NewTextBlock msg.content] else []
  let blocks := msg.files.foldl
    (fun acc file =>
      if file.path != "" then acc ++ [NewImageBlockFromFile file.path file.mimeType]
      else acc ++ [NewImageBlock file.data file.mimeType])
    blocks
  { id := env.fr.genID, role := "user", content := blocks, timestamp := env.fr.now }

/-- `HandleMessage`: ensure the system prompt, route slash commands,
otherwise append the user message, run `ProcessLLMStream`, append a
non-empty assistant result, and invoke `maybeSummarize`.  The
`SaveSession` persistence calls do not change the in-memory history and
are elided. -/
def HandleMessage (env : EngineEnv) (msg : UnifiedMessage) (h : ChatHistory) : HandleOut :=
  let h1 := ensureSystemPrompt env h
  if goHasPfx "/" msg.content then
    handleSlashCommand env msg h1
  else
    let userMsg := buildUserMessage env msg
    let h2 := { h1 with messages := h1.messages ++ [userMsg] }
    let run := env.processLLM msg h2
    let h3 :=
      if run.1.content.length > 0 then { run.2 with messages := run.2.messages ++ [run.1] }
      else run.2
    let summ := maybeSummarize env.cfg env.fr h3 run.1.usage env.summarizerLLM
    { result := run.1, history := summ.1, llmCalls := 1, summarizeRuns := 1 }

/-! ## Auxiliary predicates and concrete instances used by the
theorems. -/

/-- The spec's system-first invariant I1 restricted to what the
truncation claim needs: no message after position 0 has role
`system`. -/
def systemOnlyAtHead (msgs : List Message) : Prop :=
  ∀ m ∈ msgs.drop 1, m.role ≠ "system"

instance (msgs : List Message) : Decidable (systemOnlyAtHead msgs) := by
  unfold systemOnlyAtHead
  infer_instance

/-- A history whose position 0 holds one system message and whose tail
holds a second one — legal for the raw data type, violating invariant
I1.  Used to probe `TruncateHistory`. -/
def sysMsgA : Message :=
  { id := "sysA", role := "system", content := [NewTextBlock "first prompt"] }

/-- The second (tail) system message of the probe history. -/
def sysMsgB : Message :=
  { id := "sysB", role := "system", content := [NewTextBlock "second prompt"] }

/-- Config instance for probing the summarization trigger: thresholds at
their defaults except a tiny `history_max_chars`. -/
def cfgSmallChars : SystemConfig :=
  { historySummarizeThreshold := 10, historyKeepRecentCount := 5,
    historyMaxChars := 10, historyMaxTokens := 4000 }

/-- A one-message history whose text alone exceeds
`cfgSmallChars.historyMaxChars`. -/
def histOneLongMsg : ChatHistory :=
  { messages := [{ id := "u1", role := "user", content := [NewTextBlock "aaaaaaaaaaaa"] }] }

/-- A tool environment stub whose oracles are never consulted on the
paths the concrete slash-command theorems exercise. -/
def toolEnvStub : ToolEnv :=
  { lookup := fun _ => false
    parseArgs := fun _ => .error "unexpected end of JSON input"
    exec := fun _ _ => .err "not implemented"
    b64decode := fun _ => .error "illegal base64 data" }

/-- A concrete engine environment whose `ProcessLLMStream` oracle
returns a one-text-block assistant message and leaves the history as it
received it. -/
def envSlash : EngineEnv :=
  { tools := toolEnvStub
    processLLM := fun _ h => ({ role := "assistant", content := [NewTextBlock "hi"] }, h)
    summarizerLLM := fun _ => .ok [] }

/-- A concrete provider for exercising the failover wrapper: the first
attempt fails with a transient timeout, every later attempt succeeds. -/
def clientRetryOnce : MClient Unit :=
  { results := fun k => if k == 1 then .error "read timeout" else .ok ()
    transient := fun _ => true }

/-- A chunk carrying one text block, with neither `IsFinal` nor
`RawError` set. -/
def chunkJustText : StreamChunk :=
  { contentBlocks := [NewTextBlock "partial answer"] }

/-! # Theorems -/

/-- C1: for every tool call carried by an assistant message,
`ResolveAndCommitToolCall` appends exactly one tool message
`{role: tool, tool_call_id, tool_name, content}` to the history — on
every path of `HandleToolCall` (unknown tool, argument-parse failure,
tool-execution error, tool panic, success), quantified here over every
oracle environment, so the commit is never skipped. -/
theorem resolveAndCommit_always_appends_one_tool_message
    (env : ToolEnv) (tc : ToolCall) (history : List Message) :
    ∃ blocks,
      ResolveAndCommitToolCall env tc history =
        history ++
          [{ id := env.fr.genID, role := "tool", toolCallID := tc.id, toolName := tc.name,
             content := blocks, timestamp := env.fr.now }] ∧
      (ResolveAndCommitToolCall env tc history).length = history.length + 1 := by
  refine ⟨(match HandleToolCall env tc with
    | .error _ => [NewTextBlock "Error: Internal processing panic"]
    | .ok bs => bs), ?_, ?_⟩
  · rfl
  · simp [ResolveAndCommitToolCall]

/-- C5 counterexample: both provider clients classify a connection-reset
error as NON-transient, and the OpenAI-style client also classifies
HTTP 429 / resource-exhausted rate limiting as non-transient, refuting
the claim that every provider client returns true for connection reset
and rate-limit errors. -/
theorem isTransient_counterexample_connection_reset :
    openailmIsTransientError (some "read tcp 10.0.0.1:443: connection reset by peer") = false ∧
    geminiIsTransientError (some "read tcp 10.0.0.1:443: connection reset by peer") = false ∧
    openailmIsTransientError (some "429 Too Many Requests: resource exhausted") = false :=
  ⟨rfl, rfl, rfl⟩

/-- C5 (amended): the two classifiers, evaluated over a representative
error message for each category the claim names.  The OpenAI-style
client treats connection refusal, timeouts, context-deadline-exceeded,
HTTP 500/502/503 and "overloaded" as transient, but connection reset
and HTTP 429 / resource-exhausted as permanent; the Gemini client
treats HTTP 503/500, "overloaded", 429 / resource-exhausted, internal
errors, timeouts, refusal and context-deadline as transient, but
connection reset and HTTP 502 as permanent; both treat HTTP
400/401/403 and schema-validation errors as permanent. -/
theorem isTransientError_per_client_classification :
    openailmIsTransientError (some "dial tcp 127.0.0.1:443: connection refused") = true ∧
    openailmIsTransientError (some "net/http: request canceled (Client.Timeout exceeded)") = true ∧
    openailmIsTransientError (some "context deadline exceeded") = true ∧
    openailmIsTransientError (some "500 Internal Server Error") = true ∧
    openailmIsTransientError (some "502 Bad Gateway") = true ∧
    openailmIsTransientError (some "503 Service Unavailable") = true ∧
    openailmIsTransientError (some "Overloaded, please retry later") = true ∧
    openailmIsTransientError (some "read tcp: connection reset by peer") = false ∧
    openailmIsTransientError (some "429 Too Many Requests") = false ∧
    openailmIsTransientError (some "resource exhausted") = false ∧
    openailmIsTransientError (some "400 Bad Request") = false ∧
    openailmIsTransientError (some "401 Unauthorized") = false ∧
    openailmIsTransientError (some "403 Forbidden") = false ∧
    openailmIsTransientError (some "schema validation failed: missing field") = false ∧
    openailmIsTransientError none = false ∧
    geminiIsTransientError (some "503 Service Unavailable") = true ∧
    geminiIsTransientError (some "the model is overloaded") = true ∧
    geminiIsTransientError (some "429 Too Many Requests") = true ∧
    geminiIsTransientError (some "RESOURCE EXHAUSTED: quota") = true ∧
    geminiIsTransientError (some "500 Internal Error") = true ∧
    geminiIsTransientError (some "read timeout") = true ∧
    geminiIsTransientError (some "dial tcp: connection refused") = true ∧
    geminiIsTransientError (some "context deadline exceeded") = true ∧
    geminiIsTransientError (some "read tcp: connection reset by peer") = false ∧
    geminiIsTransientError (some "502 Bad Gateway") = false ∧
    geminiIsTransientError (some "400 Bad Request") = false ∧
    geminiIsTransientError (some "401 Unauthorized") = false ∧
    geminiIsTransientError (some "403 Forbidden") = false ∧
    geminiIsTransientError (some "schema validation failed: missing field") = false ∧
    geminiIsTransientError none = false :=
  ⟨rfl, rfl, rfl, rfl, rfl, rfl, rfl, rfl, rfl, rfl, rfl, rfl, rfl, rfl, rfl,
   rfl, rfl, rfl, rfl, rfl, rfl, rfl, rfl, rfl, rfl, rfl, rfl, rfl, rfl, rfl⟩

/-- Helper: decomposition of `TruncateHistory` in the truncating case
(`keep < length`): the kept slice is a slice of the tail, and the result
is that slice with the head system message re-prepended exactly when the
slice does not itself start with a system message. -/
theorem truncateHistory_messages_of_lt (h : ChatHistory) (keep : Nat) (m0 : Message)
    (rest : List Message) (hm : h.messages = m0 :: rest) (hlt : keep < h.messages.length) :
    (TruncateHistory h keep).messages =
      (if m0.role == "system" then
        (if (match (rest.drop (rest.length - keep)).head? with
             | none => true
             | some k => k.role != "system") then
          m0 :: rest.drop (rest.length - keep)
        else rest.drop (rest.length - keep))
      else rest.drop (rest.length - keep)) := by
  have hlen : ¬ h.messages.length ≤ keep := by omega
  have hdrop : (m0 :: rest).length - keep = (rest.length - keep) + 1 := by
    rw [hm] at hlt; simp at hlt ⊢; omega
  unfold TruncateHistory
  rw [if_neg hlen, hm, hdrop, List.drop_succ_cons]
  simp only [List.head?_cons]
  by_cases hr : m0.role = "system"
  · cases hk : (List.drop (rest.length - keep) rest).head? with
    | none =>
      have hnil : List.drop (rest.length - keep) rest = [] := by
        cases hc : List.drop (rest.length - keep) rest with
        | nil => rfl
        | cons a l => rw [hc] at hk; simp at hk
      simp [hr, hk, hnil]
    | some k =>
      by_cases hkr : k.role = "system"
      · simp [hr, hk, hkr]
      · simp [hr, hk, hkr]
  · simp [hr]

/-- C6 counterexample: on a history holding two system messages (legal
for the raw data type, violating the spec's system-first invariant),
`truncate_keep(1)` drops the position-0 system message without
re-prepending it — the result head is the other system message, so the
claim's unconditional "it is re-prepended at position 0" fails. -/
theorem truncate_counterexample_two_system_messages :
    (TruncateHistory { messages := [sysMsgA, sysMsgB] } 1).messages = [sysMsgB] ∧
    sysMsgA ≠ sysMsgB ∧ sysMsgA.role = "system" ∧
    ({ messages := [sysMsgA, sysMsgB] : ChatHistory }).messages.head? = some sysMsgA ∧
    (TruncateHistory { messages := [sysMsgA, sysMsgB] } 1).messages.head? ≠ some sysMsgA := by
  refine ⟨rfl, by decide, rfl, rfl, by decide⟩

/-- C6 (amended): for every history `h` and `n ≥ 0`, after
`truncate_keep(n)` the length of the message list is at most `n+1`, with
equality exactly when a system message was re-prepended; and when a
system message existed at position 0 before a truncation that drops it,
it is re-prepended at position 0 — provided no message outside position
0 has role `system` (the spec's own system-first invariant I1; a second
system message heading the kept tail suppresses the re-prepend). -/
theorem truncate_keep_length_bound (h : ChatHistory) (keep : Nat) :
    (TruncateHistory h keep).messages.length ≤ keep + 1 ∧
    ((TruncateHistory h keep).messages.length = keep + 1 ↔
      truncReprepends h.messages keep = true) ∧
    (systemOnlyAtHead h.messages → keep < h.messages.length →
      ∀ m, h.messages.head? = some m → m.role = "system" →
        (TruncateHistory h keep).messages.head? = some m) := by
  by_cases hle : h.messages.length ≤ keep
  · have h1 : TruncateHistory h keep = h := by
      unfold TruncateHistory; rw [if_pos hle]
    have h2 : truncReprepends h.messages keep = false := by
      unfold truncReprepends; rw [if_pos hle]
    refine ⟨by rw [h1]; omega, by rw [h1, h2]; simp; omega, ?_⟩
    intro _ hlt
    exact absurd hlt (by omega)
  · push_neg at hle
    obtain ⟨m0, rest, hm⟩ : ∃ a l, h.messages = a :: l := by
      cases hc : h.messages with
      | nil => rw [hc] at hle; simp at hle
      | cons a l => exact ⟨a, l, rfl⟩
    have hlt : keep < h.messages.length := hle
    have hkeep : keep ≤ rest.length := by rw [hm] at hlt; simp at hlt; omega
    have hnle : ¬ h.messages.length ≤ keep := by omega
    have hspec := truncateHistory_messages_of_lt h keep m0 rest hm hlt
    have hdrop : (m0 :: rest).length - keep = (rest.length - keep) + 1 := by
      simp; omega
    have hrep : truncReprepends h.messages keep =
        (if m0.role == "system" then
          (match (rest.drop (rest.length - keep)).head? with
           | none => true
           | some k => k.role != "system")
         else false) := by
      unfold truncReprepends
      rw [if_neg hnle, hm, hdrop, List.drop_succ_cons]
      simp only [List.head?_cons]
    have hkl : (rest.drop (rest.length - keep)).length = keep := by
      rw [List.length_drop]; omega
    have hmem : ∀ k, (rest.drop (rest.length - keep)).head? = some k → k ∈ rest := by
      intro k hk
      have : k ∈ rest.drop (rest.length - keep) := by
        cases hc : rest.drop (rest.length - keep) with
        | nil => rw [hc] at hk; simp at hk
        | cons a l => rw [hc] at hk; simp at hk; simp [hc, hk]
      exact List.drop_subset _ rest this
    by_cases hr : m0.role = "system"
    · cases hk : (rest.drop (rest.length - keep)).head? with
      | none =>
        have hnil : rest.drop (rest.length - keep) = [] := by
          cases hc : rest.drop (rest.length - keep) with
          | nil => rfl
          | cons a l => rw [hc] at hk; simp at hk
        have hkeep0 : keep = 0 := by rw [hnil] at hkl; simpa using hkl.symm
        rw [hspec, hrep]
        simp only [hr, hk, hnil]
        refine ⟨by simp [hkeep0], by simp [hkeep0], ?_⟩
        intro _ _ m hhead hmrole
        rw [hm] at hhead
        simp at hhead
        simp [hhead]
      | some k =>
        by_cases hkr : k.role = "system"
        · rw [hspec, hrep]
          simp only [hr, hk, hkr]
          refine ⟨by simp [hkl], by simp [hkl], ?_⟩
          intro hsys _ _ _ _
          exact absurd hkr (hsys k (by rw [hm]; simpa using hmem k hk))
        · rw [hspec, hrep]
          simp only [hr, hk]
          have hb : (k.role != "system") = true := by simp [hkr]
          simp only [hb, if_true]
          refine ⟨by simp [hkl], by simp [hkl], ?_⟩
          intro _ _ m hhead hmrole
          rw [hm] at hhead
          simp at hhead
          simp [hhead]
    · rw [hspec, hrep]
      have hrb : (m0.role == "system") = false := by simp [hr]
      simp only [hrb, Bool.false_eq_true, if_false]
      refine ⟨by simp [hkl], by simp [hkl], ?_⟩
      intro _ _ m hhead hmrole
      rw [hm] at hhead
      simp at hhead
      rw [← hhead] at hmrole
      exact absurd hmrole hr

/-- Witness for the truncate-bound theorem: a system-first history of
three messages truncated to 1 keeps the system message at position 0. -/
theorem truncate_keep_length_bound_witness :
    (TruncateHistory
        { messages := [NewSystemMessage "p" "s1" 0, { id := "u1", role := "user" },
            { id := "u2", role := "user" }] } 1).messages.head? =
      some (NewSystemMessage "p" "s1" 0) :=
  (truncate_keep_length_bound
      { messages := [NewSystemMessage "p" "s1" 0, { id := "u1", role := "user" },
          { id := "u2", role := "user" }] } 1).2.2
    (by decide) (by decide) (NewSystemMessage "p" "s1" 0) rfl rfl

/-- C7 counterexample: with a stored history file whose contents parse
as neither the `{summary, messages}` shape nor the legacy bare array,
`GetHistory` returns the load error instead of succeeding with an empty
history — the load failure is NOT downgraded. -/
theorem getHistory_counterexample_propagates_load_error :
    (GetHistory (fun _ => LoadInput.fileData none none "invalid character at offset 0")
        { storage := "mem" } "web_global").1 =
      .error "invalid character at offset 0" :=
  rfl

/-- C7 (amended): for a session id not yet in the manager's map, with
storage configured, only the missing-file case is downgraded to a fresh
empty history (which is then cached); a read error or a file matching
neither JSON shape makes `GetHistory` fail with that error, and nothing
is cached. -/
theorem getHistory_load_error_handling (fs : String → LoadInput) (st : SMState) (sid : String)
    (habs : smLookup st sid = none) (hstore : st.storage ≠ "") :
    (fs (historyFilePath st.storage sid) = .notExist →
      GetHistory fs st sid = (.ok (st.nextRef, {}), smInsertNew st sid {}, [⟨sid, true⟩])) ∧
    (∀ e, fs (historyFilePath st.storage sid) = .readErr e →
      GetHistory fs st sid = (.error e, st, [⟨sid, false⟩])) ∧
    (∀ e, fs (historyFilePath st.storage sid) = .fileData none none e →
      GetHistory fs st sid = (.error e, st, [⟨sid, false⟩])) := by
  have hst : (st.storage != "") = true := by simpa using hstore
  refine ⟨?_, ?_, ?_⟩
  · intro hfs
    unfold GetHistory
    simp only [habs, hst, hfs, ChatHistoryLoad, if_true]
  · intro e hfs
    unfold GetHistory
    simp only [habs, hst, hfs, ChatHistoryLoad, if_true]
  · intro e hfs
    unfold GetHistory
    simp only [habs, hst, hfs, ChatHistoryLoad, if_true]

/-- Witness for the load-error theorem: a fresh manager over a missing
file yields the empty history under a fresh reference. -/
theorem getHistory_load_error_handling_witness :
    GetHistory (fun _ => LoadInput.notExist) { storage := "mem" } "A" =
      (.ok (0, {}), smInsertNew { storage := "mem" } "A" {}, [⟨"A", true⟩]) :=
  (getHistory_load_error_handling (fun _ => LoadInput.notExist) { storage := "mem" } "A" rfl
    (by decide)).1 rfl

/-- Helper: when no delivered chunk carries `IsFinal` or `RawError`, the
collect loop drains the whole sequence, accumulating every chunk, and
ends with a nil stream error. -/
theorem collectChunksLoop_drains (cfg : SystemConfig) (chunks : List StreamChunk)
    (h : ∀ c ∈ chunks, c.isFinal = false ∧ c.rawError = none) :
    ∀ (msg : Message) (fwd : List ContentBlock),
      (CollectChunksLoop cfg chunks msg fwd).streamErr = none ∧
      (CollectChunksLoop cfg chunks msg fwd).msg =
        chunks.foldl (fun m c => (ProcessChunk cfg c m).1) msg := by
  induction chunks with
  | nil => intro msg fwd; exact ⟨rfl, rfl⟩
  | cons c rest ih =>
    intro msg fwd
    have hc := h c (List.mem_cons_self c rest)
    have hrest : ∀ x ∈ rest, x.isFinal = false ∧ x.rawError = none :=
      fun x hx => h x (List.mem_cons_of_mem c hx)
    unfold CollectChunksLoop
    simp only [hc.1, hc.2, Bool.false_eq_true, if_false]
    exact ⟨(ih hrest _ _).1, by rw [(ih hrest _ _).2]; rfl⟩

/-- C10: if the provider's chunk channel closes without ever delivering
a chunk with `is_final` or `raw_error` set, `CollectChunks` returns the
partially accumulated assistant message with a nil stream error — and
when the channel closes before the first chunk, the result is the fresh
(empty-content) assistant message, still with a nil error. -/
theorem collectChunks_premature_close_returns_accumulated (cfg : SystemConfig) (fr : FreshEnv)
    (chunks : List StreamChunk)
    (h : ∀ c ∈ chunks, c.isFinal = false ∧ c.rawError = none) :
    (CollectChunks cfg fr chunks).streamErr = none ∧
    (CollectChunks cfg fr chunks).msg = accumulateAllChunks cfg fr chunks ∧
    CollectChunks cfg fr [] =
      { msg := initAssistantMessage fr, streamErr := none, forwarded := [] } ∧
    (initAssistantMessage fr).content = [] := by
  refine ⟨(collectChunksLoop_drains cfg chunks h _ _).1,
    (collectChunksLoop_drains cfg chunks h _ _).2, rfl, rfl⟩

/-- Witness for the premature-close theorem: one non-final chunk with a
text block yields that block in the message and no stream error. -/
theorem collectChunks_premature_close_witness :
    (CollectChunks {} {} [chunkJustText]).streamErr = none ∧
    (CollectChunks {} {} [chunkJustText]).msg = accumulateAllChunks {} {} [chunkJustText] :=
  ⟨(collectChunks_premature_close_returns_accumulated {} {} [chunkJustText] (by decide)).1,
   (collectChunks_premature_close_returns_accumulated {} {} [chunkJustText] (by decide)).2.1⟩

/-- Helper: `maybeSummarize` either returns the history unchanged with
a false flag, or reports that the summarization path ran. -/
theorem maybeSummarize_cases (cfg : SystemConfig) (fr : FreshEnv)
    (h : ChatHistory) (usage : Option LLMUsage)
    (llm : List Message → Except GoErr (List StreamChunk)) :
    maybeSummarize cfg fr h usage llm = (h, false) ∨
      (maybeSummarize cfg fr h usage llm).2 = true := by
  rcases usage with _ | u <;>
  · simp only [maybeSummarize]
    split_ifs
    all_goals
      first
        | exact Or.inl rfl
        | (rcases hE : summarizeSession cfg fr h llm with e | s <;> simp only [hE] <;>
            first
              | exact Or.inr rfl
              | exact Or.inr trivial)

/-- Helper: the exact condition under which `maybeSummarize` enters its
summarization path. -/
theorem maybeSummarize_triggered_iff (cfg : SystemConfig) (fr : FreshEnv)
    (h : ChatHistory) (usage : Option LLMUsage)
    (llm : List Message → Except GoErr (List StreamChunk)) :
    (maybeSummarize cfg fr h usage llm).2 = true ↔
      ((h.messages.length : Int) > cfg.historyKeepRecentCount ∧
        ((cfg.historySummarizeThreshold > 0 ∧
            (h.messages.length : Int) ≥ cfg.historySummarizeThreshold) ∨
         (cfg.historyMaxChars > 0 ∧ totalTextChars h.messages ≥ cfg.historyMaxChars) ∨
         (∃ u, usage = some u ∧ u.totalTokens > 0 ∧ cfg.historyMaxTokens > 0 ∧
            u.totalTokens ≥ cfg.historyMaxTokens))) := by
  rcases usage with _ | u
  · simp only [maybeSummarize, Bool.false_eq_true, if_false]
    split_ifs with h1 h2
    · simp only [false_iff]
      rintro ⟨hgt, _⟩
      omega
    · simp at h2
      simp only [false_iff]
      rintro ⟨hgt, ⟨ht, hc⟩ | ⟨hm, hs⟩ | ⟨u2, hfalse, -⟩⟩
      · omega
      · omega
      · exact hfalse
    · simp at h2
      rcases hE : summarizeSession cfg fr h llm with e | s <;>
        simp only [hE] <;>
        refine iff_of_true trivial ⟨by omega, ?_⟩ <;>
        · by_cases hoc : cfg.historySummarizeThreshold > 0 ∧
              (h.messages.length : Int) ≥ cfg.historySummarizeThreshold
          · exact Or.inl hoc
          · have hcs := h2 (by omega)
            exact Or.inr (Or.inl ⟨hcs.1, hcs.2⟩)
  · simp only [maybeSummarize]
    split_ifs with h1 h2 h3 h4
    · simp only [false_iff]
      rintro ⟨hgt, _⟩
      omega
    · simp at h2 h3
      simp only [false_iff]
      intro hx
      omega
    · simp only [Bool.and_eq_true, decide_eq_true_eq] at h2
      rcases hE : summarizeSession cfg fr h llm with e | s <;>
        simp only [hE] <;>
        exact iff_of_true trivial
          ⟨by omega, Or.inr (Or.inr ⟨u, rfl, h2.1.1, h2.1.2, h2.2⟩)⟩
    · simp at h2 h4
      simp only [false_iff]
      rintro ⟨hgt, ⟨ht, hc⟩ | ⟨hm, hs⟩ | ⟨u2, hu2, htok, hmax, hge⟩⟩
      · omega
      · omega
      · injection hu2 with hequ
        subst hequ
        omega
    · simp at h2 h4
      rcases hE : summarizeSession cfg fr h llm with e | s <;>
        simp only [hE] <;>
        refine iff_of_true trivial ⟨by omega, ?_⟩ <;>
        · by_cases hoc : cfg.historySummarizeThreshold > 0 ∧
              (h.messages.length : Int) ≥ cfg.historySummarizeThreshold
          · exact Or.inl hoc
          · have hcs := h4 (by omega) (by omega)
            exact Or.inr (Or.inl ⟨hcs.1, hcs.2⟩)

/-- Helper: when `maybeSummarize` reports no summarization, the history
(messages and summary alike) is returned unchanged. -/
theorem maybeSummarize_not_triggered_unchanged (cfg : SystemConfig) (fr : FreshEnv)
    (h : ChatHistory) (usage : Option LLMUsage)
    (llm : List Message → Except GoErr (List StreamChunk)) :
    (maybeSummarize cfg fr h usage llm).2 = false →
      maybeSummarize cfg fr h usage llm = (h, false) := by
  intro hf
  rcases maybeSummarize_cases cfg fr h usage llm with hc | hc
  · exact hc
  · rw [hc] at hf
    exact absurd hf (by simp)

/-- C2 counterexample: with `keep_recent_count = 5`, a one-message
history whose total text chars (12) exceed `history_max_chars = 10` and
an assistant usage whose 5000 total tokens exceed
`history_max_tokens = 4000`, `maybeSummarize` does NOT summarize and
leaves the history unchanged — exceeding either limit alone does not
suffice, because the `msg_count ≤ keep_recent_count` early return guards
every condition. -/
theorem maybeSummarize_counterexample_under_keep_count :
    maybeSummarize cfgSmallChars {} histOneLongMsg (some { totalTokens := 5000 })
        (fun _ => .ok []) = (histOneLongMsg, false) ∧
    totalTextChars histOneLongMsg.messages ≥ cfgSmallChars.historyMaxChars ∧
    (0 : Int) < cfgSmallChars.historyMaxChars ∧
    (5000 : Int) ≥ cfgSmallChars.historyMaxTokens ∧
    (0 : Int) < cfgSmallChars.historyMaxTokens :=
  ⟨rfl, by decide, by decide, by decide, by decide⟩

/-- C2 (amended): `maybeSummarize` summarizes if and only if
`msg_count > keep_recent_count` AND at least one of the three limits
fires — `msg_count ≥ summarize_threshold` (with a positive threshold),
`total_text_chars ≥ history_max_chars` (with a positive limit), or
`usage.total_tokens ≥ history_max_tokens` (with positive tokens and
limit); exceeding a char or token limit alone does not suffice when
`msg_count ≤ keep_recent_count`.  When it does not summarize, the
history and summary are left unchanged. -/
theorem maybeSummarize_trigger_characterization (cfg : SystemConfig) (fr : FreshEnv)
    (h : ChatHistory) (usage : Option LLMUsage)
    (llm : List Message → Except GoErr (List StreamChunk)) :
    ((maybeSummarize cfg fr h usage llm).2 = true ↔
      ((h.messages.length : Int) > cfg.historyKeepRecentCount ∧
        ((cfg.historySummarizeThreshold > 0 ∧
            (h.messages.length : Int) ≥ cfg.historySummarizeThreshold) ∨
         (cfg.historyMaxChars > 0 ∧ totalTextChars h.messages ≥ cfg.historyMaxChars) ∨
         (∃ u, usage = some u ∧ u.totalTokens > 0 ∧ cfg.historyMaxTokens > 0 ∧
            u.totalTokens ≥ cfg.historyMaxTokens)))) ∧
    ((maybeSummarize cfg fr h usage llm).2 = false →
      maybeSummarize cfg fr h usage llm = (h, false)) :=
  ⟨maybeSummarize_triggered_iff cfg fr h usage llm,
   maybeSummarize_not_triggered_unchanged cfg fr h usage llm⟩

/-- Witness for the trigger characterization: an empty history is left
untouched. -/
theorem maybeSummarize_trigger_characterization_witness :
    maybeSummarize {} {} {} none (fun _ => .ok []) = ({}, false) :=
  (maybeSummarize_trigger_characterization {} {} {} none (fun _ => .ok [])).2 rfl


/-- Helper: a granted retry requires the counter to be under the limit
and increments it by exactly one. -/
theorem attemptRetry_true (cfg : SystemConfig) (isTr : GoErr → Bool)
    (streamErr : Option GoErr) (rc : Int) :
    (AttemptRetry cfg isTr streamErr rc).1 = true →
      rc < cfg.maxRetries ∧ (AttemptRetry cfg isTr streamErr rc).2 = rc + 1 := by
  unfold AttemptRetry
  split_ifs with ha hb
  · simp
  · simp
  · intro _
    exact ⟨by omega, rfl⟩

/-- Helper: starting from counter `rc ≤ max_retries`, at most
`max_retries - rc` retry recursions can occur. -/
theorem countRetries_le (cfg : SystemConfig) (isTr : GoErr → Bool) :
    ∀ (events : List TurnEnd) (rc : Int), rc ≤ cfg.maxRetries →
      (countRetries cfg isTr events rc : Int) ≤ cfg.maxRetries - rc := by
  intro events
  induction events with
  | nil => intro rc hrc; simp [countRetries]; omega
  | cons e rest ih =>
    intro rc hrc
    cases e with
    | tools =>
      have := ih rc hrc
      simpa [countRetries] using this
    | normal => simp [countRetries]; omega
    | lengthStop => simp [countRetries]; omega
    | abnormal streamErr =>
      simp only [countRetries]
      by_cases hstep : (AttemptRetry cfg isTr streamErr rc).1 = true
      · rw [if_pos hstep]
        obtain ⟨hlt, heq⟩ := attemptRetry_true cfg isTr streamErr rc hstep
        rw [heq]
        have := ih (rc + 1) (by omega)
        push_cast
        omega
      · rw [if_neg hstep]
        simp
        omega

/-- C3: across the handling of one inbound message, the number of
retry-attributable recursive `ProcessLLMStream` invocations does not
exceed `max_retries + 1`: `AttemptRetry` increments the message's
in-place counter, refuses once it reaches `max_retries`, and the
counter is never reset (the tool-recursion events leave it untouched in
`countRetries`). -/
theorem retry_bound_across_message (cfg : SystemConfig) (isTransient : GoErr → Bool)
    (events : List TurnEnd) (hmax : 0 ≤ cfg.maxRetries) :
    (countRetries cfg isTransient events 0 : Int) ≤ cfg.maxRetries + 1 ∧
    (∀ streamErr rc, rc ≥ cfg.maxRetries →
      (AttemptRetry cfg isTransient streamErr rc).1 = false) ∧
    (∀ streamErr rc, (AttemptRetry cfg isTransient streamErr rc).1 = true →
      (AttemptRetry cfg isTransient streamErr rc).2 = rc + 1) := by
  refine ⟨?_, ?_, ?_⟩
  · have := countRetries_le cfg isTransient events 0 hmax
    omega
  · intro streamErr rc hge
    unfold AttemptRetry
    split_ifs with ha hb <;> rfl
  · intro streamErr rc htrue
    exact (attemptRetry_true cfg isTransient streamErr rc htrue).2

/-- Witness for the retry bound: one granted retry, a tool turn, then a
normal stop stays within the default bound. -/
theorem retry_bound_across_message_witness :
    (countRetries {} (fun _ => true) [TurnEnd.abnormal none, TurnEnd.tools, TurnEnd.normal]
        0 : Int) ≤ ({} : SystemConfig).maxRetries + 1 :=
  (retry_bound_across_message {} (fun _ => true)
    [TurnEnd.abnormal none, TurnEnd.tools, TurnEnd.normal] (by decide)).1

/-- Helper: a successful attempt returns the chunk channel, with no
further delay beyond the one owed for this attempt. -/
theorem tryProvider_success {α : Type} (c : MClient α) (maxR : Nat) (d : Int) (k : Nat)
    (a : α) (hok : c.results k = .ok a) :
    tryProvider c maxR d k = (.ok a, if k > 1 then [((k : Int) - 1) * d] else []) := by
  conv_lhs => rw [tryProvider]
  simp only [hok]

/-- Helper: a transient failure with attempts remaining proceeds to the
next attempt, accumulating its delays. -/
theorem tryProvider_retry_step {α : Type} (c : MClient α) (maxR : Nat) (d : Int) (k : Nat)
    (e : GoErr) (herr : c.results k = .error e) (htr : c.transient e = true) (hlt : k < maxR) :
    tryProvider c maxR d k =
      ((tryProvider c maxR d (k + 1)).1,
        (if k > 1 then [((k : Int) - 1) * d] else []) ++ (tryProvider c maxR d (k + 1)).2) := by
  conv_lhs => rw [tryProvider]
  simp only [herr]
  rw [dif_pos ⟨htr, hlt⟩]

/-- Helper: every re-attempt `k+1 ≥ 2` is preceded by a sleep of
`((k+1)-1) × retry_delay`. -/
theorem tryProvider_delays_head {α : Type} (c : MClient α) (maxR : Nat) (d : Int) (k : Nat)
    (hk : 1 ≤ k) :
    ∃ rest, (tryProvider c maxR d (k + 1)).2 = ((k : Int) * d) :: rest := by
  rw [tryProvider]
  have h1 : k + 1 > 1 := by omega
  have h2 : ((k + 1 : Nat) : Int) - 1 = (k : Int) := by push_cast; ring
  rcases hres : c.results (k + 1) with e | a
  · simp only [hres, if_pos h1, h2]
    by_cases hc : c.transient e = true ∧ k + 1 < maxR
    · rw [dif_pos hc]
      exact ⟨_, rfl⟩
    · rw [dif_neg hc]
      exact ⟨[], rfl⟩
  · simp only [hres, if_pos h1, h2]
    exact ⟨[], rfl⟩

/-- Helper: a non-transient failure, or one with the attempt budget
exhausted, ends this provider with that error. -/
theorem tryProvider_stop {α : Type} (c : MClient α) (maxR : Nat) (d : Int) (k : Nat)
    (e : GoErr) (herr : c.results k = .error e)
    (hstop : c.transient e = false ∨ maxR ≤ k) :
    tryProvider c maxR d k = (.error e, if k > 1 then [((k : Int) - 1) * d] else []) := by
  conv_lhs => rw [tryProvider]
  simp only [herr]
  rw [dif_neg]
  rintro ⟨ht, hlt⟩
  rcases hstop with hs | hs
  · simp [hs] at ht
  · omega

/-- Helper: when a provider ends with an error, the wrapper advances to
the next provider, recording that error as the last failure. -/
theorem fallbackGo_advance {α : Type} (maxRetries rd : Int) (c : MClient α)
    (cs : List (MClient α)) (last : Option GoErr) (e : GoErr)
    (hE : (tryProvider c (effMaxRetries maxRetries) rd 1).1 = .error e) :
    fallbackGo maxRetries rd (c :: cs) last = fallbackGo maxRetries rd cs (some e) := by
  conv_lhs => rw [fallbackGo]
  simp only [hE]

/-- C4: the failover wrapper retries a provider whose `stream_chat`
fails transiently, sleeping `(attempt-1) × retry_delay` before each
re-attempt, up to `max_retries` attempts per provider (attempts are
1-based and capped by `effMaxRetries`); a non-transient error, or an
exhausted budget, advances to the next provider carrying the error as
the last failure; and once every provider is exhausted the wrapper
returns the aggregate `allFailed` error holding the last failure
instead of a chunk channel. -/
theorem fallback_failover_discipline {α : Type} (c : MClient α) (maxR : Nat) (d : Int)
    (k : Nat) (hk : 1 ≤ k) :
    (∀ a, c.results k = .ok a →
      tryProvider c maxR d k = (.ok a, if k > 1 then [((k : Int) - 1) * d] else [])) ∧
    (∀ e, c.results k = .error e → c.transient e = true → k < maxR →
      tryProvider c maxR d k =
        ((tryProvider c maxR d (k + 1)).1,
          (if k > 1 then [((k : Int) - 1) * d] else []) ++ (tryProvider c maxR d (k + 1)).2) ∧
      ∃ rest, (tryProvider c maxR d (k + 1)).2 = ((k : Int) * d) :: rest) ∧
    (∀ e, c.results k = .error e → (c.transient e = false ∨ maxR ≤ k) →
      tryProvider c maxR d k = (.error e, if k > 1 then [((k : Int) - 1) * d] else [])) ∧
    (∀ (maxRetries rd : Int) (cs : List (MClient α)) (last : Option GoErr) (e : GoErr),
      (tryProvider c (effMaxRetries maxRetries) rd 1).1 = .error e →
      fallbackGo maxRetries rd (c :: cs) last = fallbackGo maxRetries rd cs (some e)) ∧
    (∀ (maxRetries rd : Int) (last : Option GoErr),
      fallbackGo maxRetries rd ([] : List (MClient α)) last = .error (.allFailed last)) ∧
    (∀ (maxRetries rd : Int) (clients : List (MClient α)),
      FallbackStreamChat maxRetries rd clients = fallbackGo maxRetries rd clients none) := by
  refine ⟨?_, ?_, ?_, ?_, ?_, ?_⟩
  · intro a hok
    exact tryProvider_success c maxR d k a hok
  · intro e herr htr hlt
    exact ⟨tryProvider_retry_step c maxR d k e herr htr hlt,
      tryProvider_delays_head c maxR d k hk⟩
  · intro e herr hstop
    exact tryProvider_stop c maxR d k e herr hstop
  · intro maxRetries rd cs last e hE
    exact fallbackGo_advance maxRetries rd c cs last e hE
  · intro maxRetries rd last
    rfl
  · intro maxRetries rd clients
    rfl

/-- Witness for the failover discipline: the concrete provider fails
transiently on attempt 1 and is retried with a 500ms delay before
attempt 2. -/
theorem fallback_failover_discipline_witness :
    (tryProvider clientRetryOnce 3 500 1 =
      ((tryProvider clientRetryOnce 3 500 (1 + 1)).1,
        (if 1 > 1 then [((1 : Int) - 1) * 500] else []) ++
          (tryProvider clientRetryOnce 3 500 (1 + 1)).2) ∧
    ∃ rest, (tryProvider clientRetryOnce 3 500 (1 + 1)).2 = ((1 : Int) * 500) :: rest) :=
  (fallback_failover_discipline clientRetryOnce 3 500 1 (by decide)).2.1 "read timeout"
    rfl rfl (by decide)


/-- Helper: a `GetHistory` hit returns the stored reference unchanged,
with no state change and no load. -/
theorem getHistory_present (fs : String → LoadInput) (st : SMState) (sid : String) (r : Nat)
    (hpres : smLookup st sid = some r) :
    GetHistory fs st sid = (.ok (r, heapGet st r), st, []) := by
  unfold GetHistory
  simp only [hpres]

/-- Helper: storing a history for one id leaves other ids' entries
untouched. -/
theorem smLookup_insertNew_ne (st : SMState) (sid sid' : String) (h2 : ChatHistory)
    (hne : sid ≠ sid') :
    smLookup (smInsertNew st sid' h2) sid = smLookup st sid := by
  unfold smLookup smInsertNew
  simp only [List.find?_cons]
  have : (sid' == sid) = false := by simpa using fun hEq => hne hEq.symm
  simp [this]

/-- Helper: one `GetHistory` call never removes or replaces an existing
map entry. -/
theorem getHistory_state_preserves (fs : String → LoadInput) (st : SMState)
    (sid' sid : String) (r : Nat) (hpres : smLookup st sid = some r) :
    smLookup (GetHistory fs st sid').2.1 sid = some r := by
  unfold GetHistory
  rcases hlook : smLookup st sid' with _ | r'
  · have hne : sid ≠ sid' := by
      intro hEq
      rw [hEq, hlook] at hpres
      exact Option.noConfusion hpres
    simp only [hlook]
    by_cases hst : (st.storage != "") = true
    · simp only [hst, if_true]
      rcases hload : ChatHistoryLoad {} (fs (historyFilePath st.storage sid')) with e | hh
      · simp only [hload]
        exact hpres
      · simp only [hload]
        rw [smLookup_insertNew_ne st sid sid' hh hne]
        exact hpres
    · have hstf : (st.storage != "") = false := by simpa using hst
      simp only [hstf, Bool.false_eq_true, if_false]
      rw [smLookup_insertNew_ne st sid sid' {} hne]
      exact hpres
  · simp only [hlook]
    exact hpres

/-- Helper: a stored entry survives any sequence of `GetHistory`
calls. -/
theorem applyGets_preserves (fs : String → LoadInput) :
    ∀ (sids : List String) (st : SMState) (sid : String) (r : Nat),
      smLookup st sid = some r → smLookup (applyGets fs st sids).1 sid = some r := by
  intro sids
  induction sids with
  | nil => intro st sid r hpres; exact hpres
  | cons sid' rest ih =>
    intro st sid r hpres
    simp only [applyGets]
    exact ih _ sid r (getHistory_state_preserves fs st sid' sid r hpres)

/-- Helper: after storing, the id maps to the fresh reference. -/
theorem smLookup_insertNew_self (st : SMState) (sid : String) (h2 : ChatHistory) :
    smLookup (smInsertNew st sid h2) sid = some st.nextRef := by
  unfold smLookup smInsertNew
  simp [List.find?_cons]

/-- Helper: every load event of a `GetHistory` call is for the id it
was called with. -/
theorem getHistory_trace_all_sid (fs : String → LoadInput) (st : SMState) (sid' : String) :
    ∀ ev ∈ (GetHistory fs st sid').2.2, ev.sid = sid' := by
  unfold GetHistory
  rcases hlook : smLookup st sid' with _ | r'
  · simp only [hlook]
    by_cases hst : (st.storage != "") = true
    · simp only [hst, if_true]
      rcases hload : ChatHistoryLoad {} (fs (historyFilePath st.storage sid')) with e | hh <;>
        simp [hload]
    · have hstf : (st.storage != "") = false := by simpa using hst
      simp [hstf]
  · simp [hlook]

/-- Helper: load-attempt counting distributes over trace
concatenation. -/
theorem countLoadAttempts_append (sid : String) (a b : List LoadEv) :
    countLoadAttempts sid (a ++ b) = countLoadAttempts sid a + countLoadAttempts sid b := by
  unfold countLoadAttempts
  rw [List.filter_append, List.length_append]

/-- Helper: successful-load counting distributes over trace
concatenation. -/
theorem countLoadSuccesses_append (sid : String) (a b : List LoadEv) :
    countLoadSuccesses sid (a ++ b) = countLoadSuccesses sid a + countLoadSuccesses sid b := by
  unfold countLoadSuccesses
  rw [List.filter_append, List.length_append]

/-- Helper: successful loads never outnumber load attempts. -/
theorem countLoadSuccesses_le_attempts (sid : String) :
    ∀ evs, countLoadSuccesses sid evs ≤ countLoadAttempts sid evs := by
  intro evs
  unfold countLoadSuccesses countLoadAttempts
  induction evs with
  | nil => simp
  | cons e rest ih =>
    simp only [List.filter_cons]
    cases hsid : (e.sid == sid) <;> cases hsucc : e.success <;>
      simp [hsid, hsucc] <;> omega

/-- Helper: a `GetHistory` call for a different id performs no load
for this one. -/
theorem getHistory_attempts_zero_of_ne (fs : String → LoadInput) (st : SMState)
    (sid' sid : String) (hne : sid' ≠ sid) :
    countLoadAttempts sid (GetHistory fs st sid').2.2 = 0 := by
  unfold countLoadAttempts
  rw [List.length_eq_zero, List.filter_eq_nil_iff]
  intro ev hev
  have hsid := getHistory_trace_all_sid fs st sid' ev hev
  simp [hsid, hne]

/-- Helper: once an id is stored, a `GetHistory` call performs no load
for it. -/
theorem getHistory_attempts_zero_of_present (fs : String → LoadInput) (st : SMState)
    (sid' sid : String) (r : Nat) (hpres : smLookup st sid = some r) :
    countLoadAttempts sid (GetHistory fs st sid').2.2 = 0 := by
  by_cases hsid : sid' = sid
  · subst hsid
    rw [getHistory_present fs st sid' r hpres]
    rfl
  · exact getHistory_attempts_zero_of_ne fs st sid' sid hsid

/-- Helper: once an id is stored, no later call sequence ever invokes
`ChatHistory.Load` for it again. -/
theorem applyGets_attempts_zero_of_present (fs : String → LoadInput) :
    ∀ (sids : List String) (st : SMState) (sid : String) (r : Nat),
      smLookup st sid = some r → countLoadAttempts sid (applyGets fs st sids).2 = 0 := by
  intro sids
  induction sids with
  | nil => intro st sid r _; rfl
  | cons sid' rest ih =>
    intro st sid r hpres
    simp only [applyGets]
    rw [countLoadAttempts_append]
    rw [getHistory_attempts_zero_of_present fs st sid' sid r hpres]
    rw [ih _ sid r (getHistory_state_preserves fs st sid' sid r hpres)]

/-- Helper: over any call sequence, at most one load for a given id
succeeds. -/
theorem applyGets_successes_le_one (fs : String → LoadInput) (sid : String) :
    ∀ (sids : List String) (st : SMState),
      countLoadSuccesses sid (applyGets fs st sids).2 ≤ 1 := by
  intro sids
  induction sids with
  | nil => intro st; simp [applyGets, countLoadSuccesses]
  | cons sid' rest ih =>
    intro st
    simp only [applyGets]
    rw [countLoadSuccesses_append]
    rcases hpres : smLookup st sid with _ | r
    · by_cases hsid : sid' = sid
      · subst hsid
        unfold GetHistory
        simp only [hpres]
        by_cases hst : (st.storage != "") = true
        · simp only [hst, if_true]
          rcases hload : ChatHistoryLoad {} (fs (historyFilePath st.storage sid')) with e | hh
          · simp only [hload]
            have h1 : countLoadSuccesses sid' [⟨sid', false⟩] = 0 := by
              simp [countLoadSuccesses]
            have h2 := ih st
            omega
          · simp only [hload]
            have h1 : countLoadSuccesses sid' [⟨sid', true⟩] = 1 := by
              simp [countLoadSuccesses]
            have hz := applyGets_attempts_zero_of_present fs rest (smInsertNew st sid' hh)
              sid' st.nextRef (smLookup_insertNew_self st sid' hh)
            have hle := countLoadSuccesses_le_attempts sid'
              (applyGets fs (smInsertNew st sid' hh) rest).2
            omega
        · have hstf : (st.storage != "") = false := by simpa using hst
          simp only [hstf, Bool.false_eq_true, if_false]
          have h1 : countLoadSuccesses sid' ([] : List LoadEv) = 0 := rfl
          have h2 := ih (smInsertNew st sid' {})
          omega
      · have hatt := getHistory_attempts_zero_of_ne fs st sid' sid hsid
        have hle := countLoadSuccesses_le_attempts sid (GetHistory fs st sid').2.2
        have h2 := ih (GetHistory fs st sid').2.1
        omega
    · have hatt := getHistory_attempts_zero_of_present fs st sid' sid r hpres
      have hle := countLoadSuccesses_le_attempts sid (GetHistory fs st sid').2.2
      have hpres2 := getHistory_state_preserves fs st sid' sid r hpres
      have hz := applyGets_attempts_zero_of_present fs rest _ sid r hpres2
      have hle2 := countLoadSuccesses_le_attempts sid
        (applyGets fs (GetHistory fs st sid').2.1 rest).2
      omega

/-- C9 counterexample: with a history file that is malformed JSON, two
successive `GetHistory` calls for the same session id invoke
`ChatHistory.Load` (and hence read the session file) twice — the file is
not "loaded at most once per id per process lifetime" when loading
fails, because a failed load caches nothing. -/
theorem session_file_loaded_twice_counterexample :
    countLoadAttempts "A"
      (applyGets (fun _ => LoadInput.fileData none none "bad json") { storage := "s" }
        ["A", "A"]).2 = 2 :=
  rfl

/-- C9 (amended): `GetHistory` returns one shared `ChatHistory` per
session id — once stored, every later call returns the same reference
with the map unchanged, the double-checked construction never builds a
second history for a present id, no load is ever performed again for a
stored id, and across any sequence of calls the session file is
SUCCESSFULLY loaded at most once per id (after a failed load nothing is
cached and a later call re-reads the file). -/
theorem session_history_cached_once :
    (∀ (fs : String → LoadInput) (st : SMState) (sid : String) (r : Nat),
      smLookup st sid = some r →
      GetHistory fs st sid = (.ok (r, heapGet st r), st, [])) ∧
    (∀ (fs : String → LoadInput) (st : SMState) (sid : String) (r : Nat) (sids : List String),
      smLookup st sid = some r → smLookup (applyGets fs st sids).1 sid = some r) ∧
    (∀ (fs : String → LoadInput) (st : SMState) (sid : String) (r : Nat) (sids : List String),
      smLookup st sid = some r →
      (GetHistory fs (applyGets fs st sids).1 sid).1 =
        .ok (r, heapGet (applyGets fs st sids).1 r)) ∧
    (∀ (fs : String → LoadInput) (st : SMState) (sid : String) (r : Nat) (sids : List String),
      smLookup st sid = some r →
      countLoadAttempts sid (applyGets fs st sids).2 = 0) ∧
    (∀ (fs : String → LoadInput) (st : SMState) (sid : String) (sids : List String),
      countLoadSuccesses sid (applyGets fs st sids).2 ≤ 1) := by
  refine ⟨?_, ?_, ?_, ?_, ?_⟩
  · intro fs st sid r hpres
    exact getHistory_present fs st sid r hpres
  · intro fs st sid r sids hpres
    exact applyGets_preserves fs sids st sid r hpres
  · intro fs st sid r sids hpres
    rw [getHistory_present fs _ sid r (applyGets_preserves fs sids st sid r hpres)]
  · intro fs st sid r sids hpres
    exact applyGets_attempts_zero_of_present fs sids st sid r hpres
  · intro fs st sid sids
    exact applyGets_successes_le_one fs sid sids st

/-- Witness for the caching theorem: a manager already holding id "A"
returns the stored reference without touching the filesystem. -/
theorem session_history_cached_once_witness :
    GetHistory (fun _ => LoadInput.notExist) (smInsertNew {} "A" {}) "A" =
      (.ok (0, heapGet (smInsertNew {} "A" {}) 0), smInsertNew {} "A" {}, []) :=
  session_history_cached_once.1 (fun _ => LoadInput.notExist) (smInsertNew {} "A" {}) "A" 0 rfl


/-- Helper: no slash-command path ever invokes `maybeSummarize`. -/
theorem handleSlashCommand_no_summarize (env : EngineEnv) (msg : UnifiedMessage)
    (h : ChatHistory) : (handleSlashCommand env msg h).summarizeRuns = 0 := by
  simp only [handleSlashCommand]
  split
  · rfl
  · split
    · rfl
    · split
      · rfl
      · split
        · rfl
        · split <;> rfl

/-- Helper: every slash command other than `/notools` runs entirely
outside the history and without the LLM. -/
theorem handleSlashCommand_non_notools (env : EngineEnv) (msg : UnifiedMessage)
    (h : ChatHistory) (hnot : slashToolName msg.content ≠ "notools") :
    (handleSlashCommand env msg h).history = h ∧
    (handleSlashCommand env msg h).llmCalls = 0 ∧
    (handleSlashCommand env msg h).result.content = (handleSlashCommand env msg h).streamed ∧
    (∀ n, n ∈ (handleSlashCommand env msg h).toolExecs →
      resolveSlashTool env (slashToolName msg.content) = some n) := by
  have hb : (((splitN3Space (dropLeadingSlash msg.content)).headD "") == "notools") = false := by
    rw [beq_eq_false_iff_ne]
    exact hnot
  simp only [handleSlashCommand, slashToolName, hb, Bool.false_eq_true, if_false]
  split
  · exact ⟨rfl, rfl, rfl, by simp⟩
  · split
    · exact ⟨rfl, rfl, rfl, by simp⟩
    · split
      · exact ⟨rfl, rfl, rfl, by simp⟩
      · next resolved heq =>
        split
        · exact ⟨rfl, rfl, rfl, by simpa using heq⟩
        · exact ⟨rfl, rfl, rfl, by simpa using heq⟩
        · next res heqexec =>
          refine ⟨rfl, rfl, ?_, by simpa using heq⟩
          cases hc : ConvertToolResult env.tools res with
          | nil => simp [hc]
          | cons b bs => simp [hc]

/-- C8 counterexample: the `/notools` special form refutes the
unconditional claim — on input `"/notools hello"` the handler re-enters
`ProcessLLMStream` (one LLM call) and appends the resulting assistant
message to the history. -/
theorem slash_notools_counterexample :
    (handleSlashCommand envSlash { content := "/notools hello" } {}).llmCalls = 1 ∧
    (handleSlashCommand envSlash { content := "/notools hello" } {}).history ≠
      ({} : ChatHistory) ∧
    goHasPfx "/" "/notools hello" = true :=
  ⟨rfl, by decide, rfl⟩

/-- C8 (amended): for every inbound message beginning with `/`,
`HandleMessage` routes to `handleSlashCommand` (after ensuring the
system prompt) and never invokes `maybe_summarize`; for every command
other than the `/notools` special form, the handling leaves the
conversation history unchanged, performs no LLM call, executes only the
resolved named tool, and streams the converted result blocks as the
synthetic assistant message it returns.  `/notools` re-enters
`ProcessLLMStream` with tools disabled and may append the assistant
result. -/
theorem slash_commands_bypass_history_and_llm (env : EngineEnv) (msg : UnifiedMessage)
    (h : ChatHistory) (hnot : slashToolName msg.content ≠ "notools") :
    (handleSlashCommand env msg h).history = h ∧
    (handleSlashCommand env msg h).llmCalls = 0 ∧
    (handleSlashCommand env msg h).result.content = (handleSlashCommand env msg h).streamed ∧
    (∀ n, n ∈ (handleSlashCommand env msg h).toolExecs →
      resolveSlashTool env (slashToolName msg.content) = some n) ∧
    (∀ (env2 : EngineEnv) (msg2 : UnifiedMessage) (h2 : ChatHistory),
      (handleSlashCommand env2 msg2 h2).summarizeRuns = 0) ∧
    (∀ (env2 : EngineEnv) (msg2 : UnifiedMessage) (h2 : ChatHistory),
      goHasPfx "/" msg2.content = true →
      HandleMessage env2 msg2 h2 = handleSlashCommand env2 msg2 (ensureSystemPrompt env2 h2)) := by
  obtain ⟨h1, h2, h3, h4⟩ := handleSlashCommand_non_notools env msg h hnot
  refine ⟨h1, h2, h3, h4, ?_, ?_⟩
  · intro env2 msg2 h2
    exact handleSlashCommand_no_summarize env2 msg2 h2
  · intro env2 msg2 h2 hpfx
    unfold HandleMessage
    simp only [hpfx, if_true]

/-- Witness for the slash-command theorem: a concrete `/os` command
leaves the history unchanged and performs no LLM call. -/
theorem slash_commands_bypass_witness :
    (handleSlashCommand envSlash { content := "/os run_command ls" } {}).history =
      ({} : ChatHistory) ∧
    (handleSlashCommand envSlash { content := "/os run_command ls" } {}).llmCalls = 0 :=
  ⟨(slash_commands_bypass_history_and_llm envSlash { content := "/os run_command ls" } {}
      (by decide)).1,
   (slash_commands_bypass_history_and_llm envSlash { content := "/os run_command ls" } {}
      (by decide)).2.1⟩

end Genesis
